import Mathlib

/-!
Verification of the monorepo-ci-tools version planner against its source
(src/utils/git.ts and src/utils/workspaces.ts).

Modelling conventions:
* JavaScript strings are embedded as `Str := List Char`, so that every string
  operation the source uses (split, startsWith, includes, replace, trim) is a
  transparent structural recursion that the kernel can evaluate.
* Each `execa('git', args)` subprocess call is a lookup in an environment
  `GitEnv : List Str → Except Nat Str`: success carries the (final-newline
  stripped) stdout, failure carries the process exit code, exactly the two
  outcomes the source distinguishes.
* `async` functions returning promises that may reject become functions into
  `Except JsError _`; `await` of a rejecting promise is error propagation.
* The embedding fixes a POSIX platform: `os.platform() !== 'win32'`, so the
  path separator is `/` throughout (`isWin = false` in workspaces.ts).
-/

/-- A JavaScript string, embedded as its list of characters. -/
abbrev Str := List Char

/-- Converts a Lean string literal to the embedded representation. -/
def str (s : String) : Str := s.data

/-- JS `s.split(sep)` for a one-character separator `sep`: the list of chunks
between occurrences of `sep`.  Like in JS, the result is never empty and
splitting the empty string yields `[""]`. -/
def splitChar (sep : Char) : Str → List Str
  | [] => [[]]
  | c :: rest =>
    if c = sep then [] :: splitChar sep rest
    else
      match splitChar sep rest with
      | [] => [[c]]
      | r :: rs => (c :: r) :: rs

/-- JS `s.startsWith(pre)`. -/
def startsWithStr (s pre : Str) : Bool :=
  match pre, s with
  | [], _ => true
  | _ :: _, [] => false
  | a :: as, b :: bs => if a = b then startsWithStr bs as else false

/-- JS `s.includes(sub)`: `sub` occurs contiguously somewhere in `s`. -/
def occursIn (s sub : Str) : Bool :=
  match s with
  | [] => sub.isEmpty
  | _ :: rest => startsWithStr s sub || occursIn rest sub

/-- Removes the first occurrence of the non-empty pattern `pat` from `s`
(helper for `replaceFirst`). -/
def replaceFirstGo (pat : Str) : Str → Str
  | [] => []
  | c :: rest =>
    if startsWithStr (c :: rest) pat then (c :: rest).drop pat.length
    else c :: replaceFirstGo pat rest

/-- JS `s.replace(pat, '')` with a plain-string pattern: removes the first
occurrence of `pat` from `s` (and returns `s` unchanged for the empty
pattern, as `'x'.replace('', '') === 'x'`). -/
def replaceFirst (s pat : Str) : Str :=
  if pat = [] then s else replaceFirstGo pat s

/-- JS `s.trim()`: strips leading and trailing whitespace. -/
def trimStr (s : Str) : Str :=
  ((s.dropWhile Char.isWhitespace).reverse.dropWhile Char.isWhitespace).reverse

/-- The POSIX `path.sep`. -/
def pathSep : Str := str "/"

/-- Node `path.resolve(file)` against the working directory `cwd`, for the
path shapes this program produces (POSIX, no `.`/`..` segments): an absolute
path resolves to itself, the empty string resolves to `cwd`, and a relative
path is joined onto `cwd`. -/
def pathResolve (cwd file : Str) : Str :=
  if file = [] then cwd
  else if startsWithStr file pathSep then file
  else cwd ++ pathSep ++ file

/-! ### Semantic versions

The `semver` npm package is an external dependency of the source
(`semver.inc`).  It is modelled here on the strict semver grammar without
build metadata: `[v]major.minor.patch[-prerelease]`, numeric identifiers
without leading zeros, prerelease identifiers over `[0-9A-Za-z-]`.
`incBy` follows `SemVer.prototype.inc` of node-semver for the release types
`major`, `minor`, `patch` and `prerelease`. -/

/-- Release-type labels driving a semantic-version increment. -/
inductive ReleaseType where
  | major
  | minor
  | patch
  | prerelease
deriving DecidableEq, Repr

/-- A prerelease identifier: numeric or alphanumeric. -/
inductive PreId where
  | num (n : Nat)
  | alpha (s : Str)
deriving DecidableEq, Repr

/-- A parsed semantic version (build metadata not modelled). -/
structure SemVer where
  major : Nat
  minor : Nat
  patch : Nat
  prerelease : List PreId
deriving DecidableEq, Repr

/-- Decimal value of a digit string. -/
def digitsToNat (s : Str) : Nat := s.foldl (fun n c => n * 10 + (c.toNat - 48)) 0

/-- Parses a semver numeric identifier: digits only, no leading zeros. -/
def parseNumId (s : Str) : Option Nat :=
  if s = [] then none
  else if ¬ s.all Char.isDigit then none
  else if 1 < s.length ∧ s.headD '0' = '0' then none
  else some (digitsToNat s)

/-- Characters allowed in a semver prerelease identifier. -/
def isIdentChar (c : Char) : Bool := c.isAlphanum || c = '-'

/-- Parses one prerelease identifier: all-digit identifiers are numeric (no
leading zeros), other identifiers over `[0-9A-Za-z-]` are alphanumeric. -/
def parsePreId (s : Str) : Option PreId :=
  if s = [] then none
  else if s.all Char.isDigit then (parseNumId s).map PreId.num
  else if s.all isIdentChar then some (PreId.alpha s)
  else none

/-- Splits `s` at the first occurrence of `sep` into the part before and,
when `sep` occurs, the part after. -/
def breakAtChar (sep : Char) : Str → Str × Option Str
  | [] => ([], none)
  | c :: rest =>
    if c = sep then ([], some rest)
    else
      match breakAtChar sep rest with
      | (pre, r) => (c :: pre, r)

/-- Parses a semver string: optional leading `v`, dotted numeric core,
optional `-`-separated prerelease suffix. -/
def parseSemVer (s : Str) : Option SemVer :=
  let s2 := match s with
    | 'v' :: rest => rest
    | other => other
  match breakAtChar '-' s2 with
  | (core, preM) =>
    match splitChar '.' core with
    | [a, b, c] =>
      match parseNumId a, parseNumId b, parseNumId c with
      | some major, some minor, some patch =>
        match preM with
        | none => some ⟨major, minor, patch, []⟩
        | some pre =>
          match (splitChar '.' pre).mapM parsePreId with
          | some ids => some ⟨major, minor, patch, ids⟩
          | none => none
      | _, _, _ => none
    | _ => none

/-- Decimal rendering of a natural number (helper for `natToStr`). -/
def digitChar : Nat → Char
  | 0 => '0'
  | 1 => '1'
  | 2 => '2'
  | 3 => '3'
  | 4 => '4'
  | 5 => '5'
  | 6 => '6'
  | 7 => '7'
  | 8 => '8'
  | 9 => '9'
  | _ => '?'

/-- Fuelled decimal rendering (the fuel bounds the number of digits). -/
def natToStrGo : Nat → Nat → Str
  | 0, _ => []
  | fuel + 1, n =>
    if n < 10 then [digitChar n]
    else natToStrGo fuel (n / 10) ++ [digitChar (n % 10)]

/-- Decimal rendering of a natural number. -/
def natToStr (n : Nat) : Str := natToStrGo (n + 1) n

/-- Renders one prerelease identifier. -/
def renderPreId : PreId → Str
  | .num n => natToStr n
  | .alpha s => s

/-- Renders a semver value back to a string. -/
def renderSemVer (v : SemVer) : Str :=
  natToStr v.major ++ str "." ++ natToStr v.minor ++ str "." ++ natToStr v.patch ++
    (match v.prerelease with
     | [] => []
     | ids => str "-" ++ (List.intercalate (str ".") (ids.map renderPreId)))

/-- One step of `incLastNumeric`: combine the head with the attempt on the
tail — when the tail had a numeric identifier keep the head, otherwise
increment a numeric head, and give up on an alphanumeric head. -/
def incLastNumericStep (x : PreId) (xs : List PreId) :
    Option (List PreId) → Option (List PreId)
  | some ys => some (x :: ys)
  | none =>
    match x with
    | .num n => some (.num (n + 1) :: xs)
    | .alpha _ => none

/-- node-semver `inc('pre')` on a non-empty prerelease list: increments the
last numeric identifier; `none` when no identifier is numeric. -/
def incLastNumeric : List PreId → Option (List PreId)
  | [] => none
  | x :: xs => incLastNumericStep x xs (incLastNumeric xs)

/-- node-semver `inc('pre')`: increment the last numeric prerelease
identifier, or append `0` when none is numeric. -/
def incPre (l : List PreId) : List PreId :=
  match incLastNumeric l with
  | some l2 => l2
  | none => l ++ [.num 0]

/-- node-semver `SemVer.prototype.inc` for the four release types. -/
def incBy (rt : ReleaseType) (v : SemVer) : SemVer :=
  match rt with
  | .major =>
    if v.minor ≠ 0 ∨ v.patch ≠ 0 ∨ v.prerelease = [] then ⟨v.major + 1, 0, 0, []⟩
    else ⟨v.major, 0, 0, []⟩
  | .minor =>
    if v.patch ≠ 0 ∨ v.prerelease = [] then ⟨v.major, v.minor + 1, 0, []⟩
    else ⟨v.major, v.minor, 0, []⟩
  | .patch =>
    if v.prerelease = [] then ⟨v.major, v.minor, v.patch + 1, []⟩
    else ⟨v.major, v.minor, v.patch, []⟩
  | .prerelease =>
    if v.prerelease = [] then ⟨v.major, v.minor, v.patch + 1, [.num 0]⟩
    else ⟨v.major, v.minor, v.patch, incPre v.prerelease⟩

/-- `semver.inc(version, releaseType)`: `none` (JS `null`) when `version` is
not a valid semver string. -/
def semverInc (s : Str) (rt : ReleaseType) : Option Str :=
  (parseSemVer s).map (fun v => renderSemVer (incBy rt v))

/-- Strict order on prerelease identifiers: numeric before alphanumeric,
numeric by value, alphanumeric lexicographically. -/
def preIdLtb : PreId → PreId → Bool
  | .num a, .num b => decide (a < b)
  | .num _, .alpha _ => true
  | .alpha _, .num _ => false
  | .alpha a, .alpha b => decide (a < b)

/-- Strict order on prerelease identifier lists: elementwise, a strict
prefix being smaller. -/
def preListLtb : List PreId → List PreId → Bool
  | [], [] => false
  | [], _ :: _ => true
  | _ :: _, [] => false
  | a :: as, b :: bs => preIdLtb a b || (decide (a = b) && preListLtb as bs)

/-- Semver precedence (strict): lexicographic on the numeric core, and for an
equal core a version with prerelease identifiers precedes one without. -/
def semverLtb (v w : SemVer) : Bool :=
  if v.major ≠ w.major then decide (v.major < w.major)
  else if v.minor ≠ w.minor then decide (v.minor < w.minor)
  else if v.patch ≠ w.patch then decide (v.patch < w.patch)
  else
    match v.prerelease, w.prerelease with
    | [], _ => false
    | _ :: _, [] => true
    | a :: as, b :: bs => preListLtb (a :: as) (b :: bs)

/-! ### Git query layer (src/utils/git.ts)

`GitEnv` is the subprocess boundary: it maps the argument list of one
`execa('git', args)` invocation to either the stdout string (exit code 0) or
the non-zero exit code the process died with. -/

/-- The git subprocess boundary: arguments to stdout-or-exit-code. -/
def GitEnv : Type := List Str → Except Nat Str

/-- The error channel of the embedded async functions: a subprocess failure
carrying its exit code, the explicit `Error('Current ref is undefined')`
throw, or a JS `TypeError` (calling a method on `undefined`). -/
inductive JsError where
  | exec (code : Nat)
  | missingRef
  | typeError
deriving DecidableEq, Repr

/-- git.ts `getRef(name)`: `git rev-parse name`, first line of the trimmed
stdout; `null` (here `none`) when the subprocess fails. -/
def getRef (git : GitEnv) (name : Str) : Option Str :=
  match git [str "rev-parse", name] with
  | .ok out => some ((splitChar '\n' (trimStr out)).headD [])
  | .error _ => none

/-- git.ts `getChangedFilesSinceRef(ref, fullPath)`: throws on a `null` ref,
otherwise finds the merge-base with HEAD, diffs against it, and splits the
output into lines, resolved to absolute paths when `fullPath` is set. -/
def getChangedFilesSinceRef (git : GitEnv) (cwd : Str) (ref : Option Str)
    (fullPath : Bool) : Except JsError (List Str) :=
  match ref with
  | none => .error .missingRef
  | some r =>
    match git [str "merge-base", r, str "HEAD"] with
    | .error c => .error (.exec c)
    | .ok out1 =>
      match git [str "diff", str "--name-only", trimStr out1] with
      | .error c => .error (.exec c)
      | .ok out2 =>
        let files := splitChar '\n' (trimStr out2)
        if fullPath then .ok (files.map (pathResolve cwd)) else .ok files

/-- git.ts `getFirstCommitByWorkspaceFolder(workspaceFolder)`: first line of
`git log --reverse --pretty=format:%H -- workspaceFolder`, trimmed. -/
def getFirstCommitByWorkspaceFolder (git : GitEnv) (workspaceFolder : Str) :
    Except JsError Str :=
  match git [str "log", str "--reverse", str "--pretty=format:%H", str "--", workspaceFolder] with
  | .error c => .error (.exec c)
  | .ok out => .ok (trimStr ((splitChar '\n' out).headD []))

/-- git.ts `getTags({isRevert})`: `git tag`, with `--sort=-refname` when
`isRevert`, split into lines and trimmed. -/
def getTags (git : GitEnv) (isRevert : Bool) : Except JsError (List Str) :=
  match git (if isRevert then [str "tag", str "--sort=-refname"] else [str "tag"]) with
  | .error c => .error (.exec c)
  | .ok out => .ok ((splitChar '\n' out).map trimStr)

/-- git.ts `isRefInHistory(ref)`: `git merge-base --is-ancestor ref HEAD`;
success is `true`, exit code 1 is `false`, any other failure is rethrown. -/
def isRefInHistory (git : GitEnv) (ref : Str) : Except JsError Bool :=
  match git [str "merge-base", str "--is-ancestor", ref, str "HEAD"] with
  | .ok _ => .ok true
  | .error c => if c = 1 then .ok false else .error (.exec c)

/-! ### Workspace version planner (src/utils/workspaces.ts) -/

/-- A bolt workspace: directory, `getName()` and `getVersion()` accessors.
JS object identity on distinct discovered workspaces is modelled as
structural equality on this record. -/
structure IWorkspace where
  dir : Str
  name : Str
  version : Str
deriving DecidableEq, Repr

/-- workspaces.ts `fileNameToPackage`: the first package whose directory
followed by the path separator starts the file name. -/
def fileNameToPackage (fileName : Str) (allPackages : List IWorkspace) : Option IWorkspace :=
  allPackages.find? (fun pkg => startsWithStr fileName (pkg.dir ++ pathSep))

/-- workspaces.ts `fileExistsInPackage`: `!!fileNameToPackage(...)`. -/
def fileExistsInPackage (fileName : Str) (allPackages : List IWorkspace) : Bool :=
  (fileNameToPackage fileName allPackages).isSome

/-- The `(pkg, idx, packages) => packages.indexOf(pkg) === idx` filter of
workspaces.ts: keeps each element only at the index of its first
occurrence. -/
def dedupByIndex (l : List IWorkspace) : List IWorkspace :=
  (l.enum.filter (fun p => l.indexOf p.2 == p.1)).map Prod.snd

/-- workspaces.ts `getWorkspacesChangedSinceRef`, after its effectful prelude
has produced the changed files (absolute paths) and the package list: keep
the files owned by some package, map each to its owning package, and
deduplicate by the `indexOf` filter.  (After the `fileExistsInPackage`
filter the source's `map` never sees `undefined`, so it is a `filterMap`
here.) -/
def getWorkspacesChangedSinceRef (changedFiles : List Str)
    (allPackages : List IWorkspace) : List IWorkspace :=
  dedupByIndex
    ((changedFiles.filter (fun fileName => fileExistsInPackage fileName allPackages)).filterMap
      (fun fileName => fileNameToPackage fileName allPackages))

/-- JS `change.split('/')` last element: the basename stored by
`getChangesFromLastTagByWorkspaces`. -/
def baseNameOf (change : Str) : Str := (splitChar '/' change).getLastD []

/-- workspaces.ts `getChangesFromLastTagByWorkspaces`, after its effectful
prelude has produced the changed files and the package list: for every
package, an entry keyed by its directory holding the basenames of the
changed files whose path contains that directory.  The JS result object is
modelled as the association list in insertion order. -/
def getChangesFromLastTagByWorkspaces (changedFiles : List Str)
    (allPackages : List IWorkspace) : List (Str × List Str) :=
  allPackages.map (fun workspace =>
    (workspace.dir,
      (changedFiles.filter (fun changeFilePath => occursIn changeFilePath workspace.dir)).map
        baseNameOf))

/-- `pLocate(list, tester, {preserveOrder: true})` over the embedded promise
semantics: test elements in order, return the first for which the tester
resolves `true`, `none` when none does, propagating a tester rejection. -/
def pLocate (l : List Str) (p : Str → Except JsError Bool) : Except JsError (Option Str) :=
  match l with
  | [] => .ok none
  | x :: xs =>
    match p x with
    | .error e => .error e
    | .ok true => .ok (some x)
    | .ok false => pLocate xs p

/-- Modelled from the spec: `analyzeCommitsSinceRef` is imported from
./git by workspaces.ts but is not among the source files; the spec says it
"inspects commit messages since that reference and returns a release-type
label".  It is modelled as an arbitrary total function from the reference
and the path filter to a release type. -/
def AnalyzeCommits : Type := Str → Str → ReleaseType

/-- workspaces.ts `getNextVersion(tags, workspace)`: with no tags, the
reference is the workspace folder's first commit and the current version the
workspace's own; otherwise the reference is the first tag that is an
ancestor of HEAD (a JS `TypeError` on `undefined.replace` when none is) and
the current version is the tag with the first `<name>-` occurrence removed.
The result pairs the workspace name with `semver.inc` of the current version
by the analyzed release type, mirroring the single-entry JS object. -/
def getNextVersion (git : GitEnv) (analyze : AnalyzeCommits) (cwd : Str)
    (tags : List Str) (workspace : IWorkspace) : Except JsError (Str × Option Str) :=
  let wName := workspace.name
  let folderName := replaceFirst workspace.dir (cwd ++ pathSep)
  match tags with
  | [] =>
    match getFirstCommitByWorkspaceFolder git folderName with
    | .error e => .error e
    | .ok ref => .ok (wName, semverInc workspace.version (analyze ref folderName))
  | _ :: _ =>
    match pLocate tags (fun t => isRefInHistory git t) with
    | .error e => .error e
    | .ok none => .error .typeError
    | .ok (some ref) =>
      .ok (wName, semverInc (replaceFirst ref (wName ++ str "-")) (analyze ref folderName))

/-- workspaces.ts `getNextVersionsByWorkspaces(workspaces)`: list all tags
newest-first, and for each workspace run `getNextVersion` on the tags
starting with its name; `Promise.all` joining is the fail-fast `mapM`. -/
def getNextVersionsByWorkspaces (git : GitEnv) (analyze : AnalyzeCommits) (cwd : Str)
    (workspaces : List IWorkspace) : Except JsError (List (Str × Option Str)) :=
  match getTags git true with
  | .error e => .error e
  | .ok tags =>
    workspaces.mapM (fun workspace =>
      getNextVersion git analyze cwd
        (tags.filter (fun tag => startsWithStr tag workspace.name)) workspace)

/-! ### Concrete sample data used by the scenario conjuncts and witnesses -/

/-- Workspace `a` of the spec scenarios: directory /repo/pkg-a, version 1.2.0. -/
def sampleWsA : IWorkspace := ⟨str "/repo/pkg-a", str "a", str "1.2.0"⟩

/-- Workspace `b` of the spec scenarios: directory /repo/pkg-b, version 2.0.0. -/
def sampleWsB : IWorkspace := ⟨str "/repo/pkg-b", str "b", str "2.0.0"⟩

/-- The newest-first tag list of the C3 scenario. -/
def sampleTags : List Str := [str "b-2.0.0", str "a-1.5.0", str "a-1.4.0"]

/-- A git environment for the no-prior-tag scenario: the workspace folder's
history starts at commit c0, and every tag query is empty. -/
def sampleGitNoTag : GitEnv := fun args =>
  if args = [str "log", str "--reverse", str "--pretty=format:%H", str "--", str "pkg-a"] then
    .ok (str "c0")
  else .error 128

/-- A git environment for the tagged scenario: tags sorted newest-first are
b-2.0.0, a-1.5.0, a-1.4.0, and a-1.5.0 is an ancestor of HEAD. -/
def sampleGitTagged : GitEnv := fun args =>
  if args = [str "tag", str "--sort=-refname"] then
    .ok (str "b-2.0.0\na-1.5.0\na-1.4.0")
  else if args = [str "merge-base", str "--is-ancestor", str "a-1.5.0", str "HEAD"] then
    .ok []
  else .error 1

/-- A git environment where ref master resolves to commit abc123 and every
other invocation fails. -/
def sampleGitResolve : GitEnv := fun args =>
  if args = [str "rev-parse", str "master"] then .ok (str "abc123") else .error 128

/-- A git environment where t1 is an ancestor of HEAD, t2 is not (exit code
1), and every other invocation dies with exit code 128. -/
def sampleGitHist : GitEnv := fun args =>
  if args = [str "merge-base", str "--is-ancestor", str "t1", str "HEAD"] then .ok []
  else if args = [str "merge-base", str "--is-ancestor", str "t2", str "HEAD"] then .error 1
  else .error 128

/-- A git environment where the merge-base of v1 and HEAD is commit base and
the diff against it is empty. -/
def sampleGitEmptyDiff : GitEnv := fun args =>
  if args = [str "merge-base", str "v1", str "HEAD"] then .ok (str "base")
  else if args = [str "diff", str "--name-only", str "base"] then .ok []
  else .error 128

/-! ### Helper lemmas -/

/-- Splitting at a character that does not occur leaves the string whole. -/
theorem splitChar_of_not_mem (sep : Char) (s : Str) (h : sep ∉ s) : splitChar sep s = [s] := by
  induction s with
  | nil => rfl
  | cons c rest ih =>
    have hc : ¬ c = sep := fun e => h (e ▸ List.mem_cons_self c rest)
    have hr : sep ∉ rest := fun m => h (List.mem_cons_of_mem c m)
    simp [splitChar, hc, ih hr]

/-! ### Claims -/

/-- Claim C7: for every fullPath flag (and every git environment and working
directory), calling changedFilesSinceRef with a null ref fails with
MissingRefError; no git invocation is consulted, so the failure has no other
effect. -/
theorem getChangedFilesSinceRef_null_ref (git : GitEnv) (cwd : Str) (fullPath : Bool) :
    getChangedFilesSinceRef git cwd none fullPath = .error .missingRef := rfl

/-- Claim C8: isAncestor returns false exactly when the git ancestry check
exits with code 1, returns true on exit code 0 (success), and propagates any
other non-zero exit as an error. -/
theorem isRefInHistory_exit_code (git : GitEnv) (r : Str) :
    (isRefInHistory git r = .ok false ↔
      git [str "merge-base", str "--is-ancestor", r, str "HEAD"] = .error 1) ∧
    (∀ out, git [str "merge-base", str "--is-ancestor", r, str "HEAD"] = .ok out →
      isRefInHistory git r = .ok true) ∧
    (∀ c, c ≠ 1 → git [str "merge-base", str "--is-ancestor", r, str "HEAD"] = .error c →
      isRefInHistory git r = .error (.exec c)) := by
  refine ⟨?_, ?_, ?_⟩
  · cases h : git [str "merge-base", str "--is-ancestor", r, str "HEAD"] with
    | ok out => simp [isRefInHistory, h]
    | error c =>
      by_cases hc : c = 1
      · subst hc; simp [isRefInHistory, h]
      · simp [isRefInHistory, h, hc]
  · intro out h
    simp [isRefInHistory, h]
  · intro c hc h
    simp [isRefInHistory, h, hc]

/-- Witness for C8 at a concrete environment: an ancestor ref yields true, a
non-ancestor (exit 1) yields false, and exit 128 propagates. -/
theorem isRefInHistory_exit_code_witness :
    isRefInHistory sampleGitHist (str "t1") = .ok true ∧
    isRefInHistory sampleGitHist (str "t2") = .ok false ∧
    isRefInHistory sampleGitHist (str "t3") = .error (.exec 128) :=
  ⟨(isRefInHistory_exit_code sampleGitHist (str "t1")).2.1 [] rfl,
   (isRefInHistory_exit_code sampleGitHist (str "t2")).1.mpr rfl,
   (isRefInHistory_exit_code sampleGitHist (str "t3")).2.2 128 (by decide) rfl⟩

/-- Claim C9: when `git rev-parse` fails (the ref does not exist), resolveRef
returns null and never throws (its type is total); when it succeeds with a
commit hash — a trimmed single-line string — resolveRef returns that hash. -/
theorem getRef_resolves_or_null (git : GitEnv) (r : Str) :
    (∀ c, git [str "rev-parse", r] = .error c → getRef git r = none) ∧
    (∀ h, git [str "rev-parse", r] = .ok h → trimStr h = h → '\n' ∉ h →
      getRef git r = some h) := by
  constructor
  · intro c hc
    simp [getRef, hc]
  · intro h hok htrim hnl
    simp [getRef, hok, htrim, splitChar_of_not_mem '\n' h hnl]

/-- Witness for C9 at a concrete environment: master resolves to its hash, a
missing ref resolves to null. -/
theorem getRef_resolves_or_null_witness :
    getRef sampleGitResolve (str "master") = some (str "abc123") ∧
    getRef sampleGitResolve (str "gone") = none :=
  ⟨(getRef_resolves_or_null sampleGitResolve (str "master")).2 (str "abc123")
      rfl (by decide) (by decide),
   (getRef_resolves_or_null sampleGitResolve (str "gone")).1 128 rfl⟩

/-- Claim C10: for a non-null ref, when the git diff output is empty,
changedFilesSinceRef returns the one-element list holding the empty string
(resolved against the working directory when fullPath is set) — never the
empty list. -/
theorem getChangedFilesSinceRef_empty_diff (git : GitEnv) (cwd r : Str) (fullPath : Bool)
    (out1 out2 : Str)
    (h1 : git [str "merge-base", r, str "HEAD"] = .ok out1)
    (h2 : git [str "diff", str "--name-only", trimStr out1] = .ok out2)
    (h3 : trimStr out2 = []) :
    getChangedFilesSinceRef git cwd (some r) fullPath = .ok [if fullPath then cwd else []] ∧
    ∀ res, getChangedFilesSinceRef git cwd (some r) fullPath = .ok res → res.length = 1 := by
  have hmain : getChangedFilesSinceRef git cwd (some r) fullPath =
      .ok [if fullPath then cwd else []] := by
    simp only [getChangedFilesSinceRef, h1, h2, h3]
    cases fullPath with
    | false => rfl
    | true => rfl
  refine ⟨hmain, ?_⟩
  intro res hres
  rw [hmain] at hres
  cases hres
  rfl

/-- Witness for C10 at a concrete environment: an empty diff with fullPath
set yields exactly the working directory as the single entry. -/
theorem getChangedFilesSinceRef_empty_diff_witness :
    getChangedFilesSinceRef sampleGitEmptyDiff (str "/repo") (some (str "v1")) true =
      .ok [str "/repo"] :=
  (getChangedFilesSinceRef_empty_diff sampleGitEmptyDiff (str "/repo") (str "v1") true
    (str "base") [] rfl rfl rfl).1

/-- A `find?` hit splits the list at the first match. -/
theorem find?_first_split {α : Type} (p : α → Bool) (l : List α) (a : α)
    (h : l.find? p = some a) :
    ∃ l1 l2, l = l1 ++ a :: l2 ∧ ∀ x ∈ l1, p x = false := by
  induction l with
  | nil => simp [List.find?] at h
  | cons x xs ih =>
    cases hx : p x with
    | true =>
      rw [List.find?_cons_of_pos _ hx] at h
      cases h
      exact ⟨[], xs, rfl, by simp⟩
    | false =>
      rw [List.find?_cons_of_neg _ (by simp [hx])] at h
      obtain ⟨l1, l2, heq, hall⟩ := ih h
      refine ⟨x :: l1, l2, by rw [heq]; rfl, ?_⟩
      intro y hy
      rcases List.mem_cons.mp hy with h1 | h1
      · rw [h1]; exact hx
      · exact hall y h1

/-- `enumFrom` carries strictly increasing indices. -/
theorem enumFrom_pairwise_fst {α : Type} (l : List α) (n : Nat) :
    (l.enumFrom n).Pairwise (fun a b => a.1 < b.1) := by
  induction l generalizing n with
  | nil => simp
  | cons x xs ih =>
    refine List.Pairwise.cons ?_ (ih (n + 1))
    intro p hp
    obtain ⟨i, a⟩ := p
    have h := List.mem_enumFrom hp
    exact Nat.lt_of_lt_of_le (Nat.lt_succ_self n) h.1

/-- The `indexOf`-filter deduplication returns a sublist of its input. -/
theorem dedupByIndex_sublist (l : List IWorkspace) : (dedupByIndex l).Sublist l := by
  have h1 : (l.enum.filter (fun p => l.indexOf p.2 == p.1)).Sublist l.enum :=
    List.filter_sublist _
  have h2 := h1.map Prod.snd
  rw [List.enum_map_snd] at h2
  exact h2

/-- The `indexOf`-filter deduplication lists elements in order of their first
occurrence in the input. -/
theorem dedupByIndex_pairwise (l : List IWorkspace) :
    (dedupByIndex l).Pairwise (fun a b => l.indexOf a < l.indexOf b) := by
  rw [dedupByIndex, List.pairwise_map]
  have hp : (l.enum.filter (fun p => l.indexOf p.2 == p.1)).Pairwise
      (fun a b => a.1 < b.1) :=
    (enumFrom_pairwise_fst l 0).filter _
  refine hp.imp_of_mem ?_
  intro a b ha hb hlt
  have ha2 : l.indexOf a.2 = a.1 := by simpa using (List.mem_filter.mp ha).2
  have hb2 : l.indexOf b.2 = b.1 := by simpa using (List.mem_filter.mp hb).2
  rw [ha2, hb2]
  exact hlt

/-- The `indexOf`-filter deduplication never repeats an element. -/
theorem dedupByIndex_nodup (l : List IWorkspace) : (dedupByIndex l).Nodup := by
  refine (dedupByIndex_pairwise l).imp ?_
  intro a b hlt he
  rw [he] at hlt
  exact Nat.lt_irrefl _ hlt

/-- Claim C6: mapFileToWorkspace returns the first workspace in the list
whose directory is a path-prefix of the file (directory plus separator
starts the file name), and none when no workspace directory is a path-prefix
of the file. -/
theorem fileNameToPackage_first_match (fileName : Str) (allPackages : List IWorkspace) :
    (fileNameToPackage fileName allPackages = none ↔
      ∀ pkg ∈ allPackages, startsWithStr fileName (pkg.dir ++ pathSep) = false) ∧
    (∀ w, fileNameToPackage fileName allPackages = some w →
      startsWithStr fileName (w.dir ++ pathSep) = true ∧
      ∃ l1 l2, allPackages = l1 ++ w :: l2 ∧
        ∀ pkg ∈ l1, startsWithStr fileName (pkg.dir ++ pathSep) = false) := by
  constructor
  · simp [fileNameToPackage, List.find?_eq_none]
  · intro w hw
    have hw2 : allPackages.find? (fun pkg => startsWithStr fileName (pkg.dir ++ pathSep)) =
        some w := hw
    have hpw := List.find?_some hw2
    exact ⟨hpw, find?_first_split _ allPackages w hw2⟩

/-- Witness for C6 at a concrete input: /repo/pkg-a/x.ts maps to workspace a,
which heads the list. -/
theorem fileNameToPackage_first_match_witness :
    startsWithStr (str "/repo/pkg-a/x.ts") (sampleWsA.dir ++ pathSep) = true ∧
    ∃ l1 l2, [sampleWsA, sampleWsB] = l1 ++ sampleWsA :: l2 ∧
      ∀ pkg ∈ l1, startsWithStr (str "/repo/pkg-a/x.ts") (pkg.dir ++ pathSep) = false :=
  (fileNameToPackage_first_match (str "/repo/pkg-a/x.ts") [sampleWsA, sampleWsB]).2
    sampleWsA rfl

/-- Claim C5: changesSinceLastTagByWorkspace maps every known workspace to a
key holding exactly the basenames of the changed files whose path contains
the workspace's directory; a workspace with no matching changed files is
present with an empty list, and every entry belongs to a known workspace. -/
theorem getChangesFromLastTagByWorkspaces_buckets (changedFiles : List Str)
    (allPackages : List IWorkspace) :
    (∀ w ∈ allPackages,
      (w.dir, (changedFiles.filter (fun p => occursIn p w.dir)).map baseNameOf) ∈
        getChangesFromLastTagByWorkspaces changedFiles allPackages) ∧
    (∀ e ∈ getChangesFromLastTagByWorkspaces changedFiles allPackages,
      ∃ w ∈ allPackages, e.1 = w.dir ∧
        (∀ b, b ∈ e.2 ↔ ∃ p ∈ changedFiles, occursIn p w.dir = true ∧ baseNameOf p = b) ∧
        ((∀ p ∈ changedFiles, occursIn p w.dir = false) → e.2 = [])) := by
  constructor
  · intro w hw
    exact List.mem_map.mpr ⟨w, hw, rfl⟩
  · intro e he
    obtain ⟨w, hw, rfl⟩ := List.mem_map.mp he
    refine ⟨w, hw, rfl, ?_, ?_⟩
    · intro b
      simp only [List.mem_map, List.mem_filter]
      constructor
      · rintro ⟨p, ⟨hp, hocc⟩, hb⟩
        exact ⟨p, hp, hocc, hb⟩
      · rintro ⟨p, hp, hocc, hb⟩
        exact ⟨p, ⟨hp, hocc⟩, hb⟩
    · intro hnone
      have hfil : changedFiles.filter (fun p => occursIn p w.dir) = [] := by
        rw [List.filter_eq_nil_iff]
        intro p hp
        simp [hnone p hp]
      simp [hfil]

/-- Witness for C5 at a concrete input: workspace b, with no matching changed
file, is present and maps to the empty list. -/
theorem getChangesFromLastTagByWorkspaces_buckets_witness :
    (sampleWsB.dir,
      (([str "/repo/pkg-a/x.ts"].filter (fun p => occursIn p sampleWsB.dir)).map baseNameOf)) ∈
      getChangesFromLastTagByWorkspaces [str "/repo/pkg-a/x.ts"] [sampleWsA, sampleWsB] :=
  (getChangesFromLastTagByWorkspaces_buckets [str "/repo/pkg-a/x.ts"]
    [sampleWsA, sampleWsB]).1 sampleWsB (by decide)

/-- Claim C4: workspacesChangedSinceRef, given the changed files, returns no
duplicate workspaces, only workspaces some changed file maps to (files
mapping to no workspace are discarded), in first-seen order of the changed
files; on the spec's example the result is exactly the two workspaces in
file order with the unmapped file dropped. -/
theorem getWorkspacesChangedSinceRef_spec (changedFiles : List Str)
    (allPackages : List IWorkspace) :
    (getWorkspacesChangedSinceRef changedFiles allPackages).Nodup ∧
    (∀ w ∈ getWorkspacesChangedSinceRef changedFiles allPackages,
      ∃ fileName ∈ changedFiles, fileNameToPackage fileName allPackages = some w) ∧
    (getWorkspacesChangedSinceRef changedFiles allPackages).Pairwise (fun a b =>
      ((changedFiles.filter (fun f => fileExistsInPackage f allPackages)).filterMap
          (fun f => fileNameToPackage f allPackages)).indexOf a <
      ((changedFiles.filter (fun f => fileExistsInPackage f allPackages)).filterMap
          (fun f => fileNameToPackage f allPackages)).indexOf b) ∧
    getWorkspacesChangedSinceRef
        [str "/repo/pkg-a/x.ts", str "/repo/pkg-b/y.ts", str "/repo/deleted.ts"]
        [sampleWsA, sampleWsB] = [sampleWsA, sampleWsB] := by
  refine ⟨dedupByIndex_nodup _, ?_, dedupByIndex_pairwise _, by decide⟩
  intro w hw
  have hsub := (dedupByIndex_sublist
    ((changedFiles.filter (fun f => fileExistsInPackage f allPackages)).filterMap
      (fun f => fileNameToPackage f allPackages))).subset
  have hm := hsub hw
  obtain ⟨f, hf, hfw⟩ := List.mem_filterMap.mp hm
  exact ⟨f, List.mem_of_mem_filter hf, hfw⟩

/-- Witness for C4: on the spec's example, workspace a is in the result and
indeed some changed file maps to it. -/
theorem getWorkspacesChangedSinceRef_spec_witness :
    ∃ fileName ∈ [str "/repo/pkg-a/x.ts", str "/repo/pkg-b/y.ts", str "/repo/deleted.ts"],
      fileNameToPackage fileName [sampleWsA, sampleWsB] = some sampleWsA :=
  (getWorkspacesChangedSinceRef_spec
    [str "/repo/pkg-a/x.ts", str "/repo/pkg-b/y.ts", str "/repo/deleted.ts"]
    [sampleWsA, sampleWsB]).2.1 sampleWsA (by decide)

/-- A proper prefix of a prerelease identifier list precedes it. -/
theorem preListLtb_append_singleton (xs : List PreId) (y : PreId) :
    preListLtb xs (xs ++ [y]) = true := by
  induction xs with
  | nil => rfl
  | cons a as ih => simp [preListLtb, ih]

/-- Incrementing the last numeric prerelease identifier moves strictly up in
prerelease order. -/
theorem preListLtb_incLastNumeric (l l2 : List PreId) (h : incLastNumeric l = some l2) :
    preListLtb l l2 = true := by
  induction l generalizing l2 with
  | nil => simp [incLastNumeric] at h
  | cons x xs ih =>
    cases hx : incLastNumeric xs with
    | some ys =>
      rw [incLastNumeric, hx] at h
      simp only [incLastNumericStep] at h
      cases h
      simp [preListLtb, ih ys hx]
    | none =>
      rw [incLastNumeric, hx] at h
      cases x with
      | num n =>
        simp only [incLastNumericStep] at h
        cases h
        simp [preListLtb, preIdLtb]
      | alpha s => simp [incLastNumericStep] at h

/-- node-semver `inc('pre')` moves strictly up in prerelease order. -/
theorem preListLtb_incPre (l : List PreId) : preListLtb l (incPre l) = true := by
  cases h : incLastNumeric l with
  | some l2 =>
    have he : incPre l = l2 := by simp [incPre, h]
    rw [he]
    exact preListLtb_incLastNumeric l l2 h
  | none =>
    have he : incPre l = l ++ [.num 0] := by simp [incPre, h]
    rw [he]
    exact preListLtb_append_singleton l (.num 0)

/-- Every semver increment is strictly increasing in semver precedence. -/
theorem semverLtb_incBy (rt : ReleaseType) (v : SemVer) :
    semverLtb v (incBy rt v) = true := by
  obtain ⟨M, m, p, pre⟩ := v
  cases rt with
  | major =>
    by_cases h : m ≠ 0 ∨ p ≠ 0 ∨ pre = []
    · simp [incBy, h, semverLtb]
    · push_neg at h
      obtain ⟨h1, h2, h3⟩ := h
      subst h1
      subst h2
      simp only [incBy]
      cases pre with
      | nil => exact absurd rfl h3
      | cons a as => simp [semverLtb]
  | minor =>
    by_cases h : p ≠ 0 ∨ pre = []
    · simp [incBy, h, semverLtb]
    · push_neg at h
      obtain ⟨h1, h2⟩ := h
      subst h1
      simp only [incBy]
      cases pre with
      | nil => exact absurd rfl h2
      | cons a as => simp [semverLtb]
  | patch =>
    by_cases h : pre = []
    · subst h
      simp [incBy, semverLtb]
    · simp only [incBy, if_neg h]
      cases pre with
      | nil => exact absurd rfl h
      | cons a as => simp [semverLtb]
  | prerelease =>
    by_cases h : pre = []
    · subst h
      simp [incBy, semverLtb]
    · simp only [incBy, if_neg h]
      cases pre with
      | nil => exact absurd rfl h
      | cons a as =>
        have hl := preListLtb_incPre (a :: as)
        cases hp : incPre (a :: as) with
        | nil => rw [hp] at hl; simp [preListLtb] at hl
        | cons b bs =>
          rw [hp] at hl
          simp [semverLtb, hp, hl]

/-- `pLocate` with `preserveOrder` finds the first element whose tester
resolves true. -/
theorem pLocate_first (p : Str → Except JsError Bool) (l1 : List Str) (t : Str) (l2 : List Str)
    (hfalse : ∀ x ∈ l1, p x = .ok false) (htrue : p t = .ok true) :
    pLocate (l1 ++ t :: l2) p = .ok (some t) := by
  induction l1 with
  | nil => simp [pLocate, htrue]
  | cons x xs ih =>
    have hx := hfalse x (List.mem_cons_self x xs)
    simp only [List.cons_append, pLocate, hx]
    exact ih (fun y hy => hfalse y (List.mem_cons_of_mem x hy))

/-- Claim C2: nextVersionForWorkspace case-splits on the tag list — empty:
the reference is the workspace folder's first-ever commit and the current
version the workspace's recorded one; non-empty: the reference is the first
tag in the list that is an ancestor of head (pLocate over isAncestor) and
the current version is the tag with the name prefix stripped.  On the spec
scenario (version 1.2.0, no prior tag, commits classify as minor) the next
version is 1.3.0. -/
theorem getNextVersion_case_split (git : GitEnv) (analyze : AnalyzeCommits)
    (cwd : Str) (workspace : IWorkspace) :
    (∀ out, git [str "log", str "--reverse", str "--pretty=format:%H", str "--",
        replaceFirst workspace.dir (cwd ++ pathSep)] = .ok out →
      getNextVersion git analyze cwd [] workspace =
        .ok (workspace.name,
          semverInc workspace.version
            (analyze (trimStr ((splitChar '\n' out).headD []))
              (replaceFirst workspace.dir (cwd ++ pathSep))))) ∧
    (∀ (tags : List Str) (t : Str), tags ≠ [] →
      pLocate tags (fun t2 => isRefInHistory git t2) = .ok (some t) →
      getNextVersion git analyze cwd tags workspace =
        .ok (workspace.name,
          semverInc (replaceFirst t (workspace.name ++ str "-"))
            (analyze t (replaceFirst workspace.dir (cwd ++ pathSep))))) ∧
    (∀ (l1 : List Str) (t : Str) (l2 : List Str),
      (∀ x ∈ l1, isRefInHistory git x = .ok false) →
      isRefInHistory git t = .ok true →
      pLocate (l1 ++ t :: l2) (fun t2 => isRefInHistory git t2) = .ok (some t)) ∧
    getNextVersion sampleGitNoTag (fun _ _ => ReleaseType.minor) (str "/repo") [] sampleWsA =
      .ok (str "a", some (str "1.3.0")) := by
  refine ⟨?_, ?_, ?_, rfl⟩
  · intro out hout
    simp [getNextVersion, getFirstCommitByWorkspaceFolder, hout]
  · intro tags t htags hloc
    cases tags with
    | nil => exact absurd rfl htags
    | cons t0 ts => simp [getNextVersion, hloc]
  · intro l1 t l2 hfalse htrue
    exact pLocate_first _ l1 t l2 hfalse htrue

/-- Witness for C2 at the concrete no-prior-tag scenario, discharging the
first-commit hypothesis against the sample environment. -/
theorem getNextVersion_case_split_witness :
    getNextVersion sampleGitNoTag (fun _ _ => ReleaseType.minor) (str "/repo") [] sampleWsA =
      .ok (sampleWsA.name,
        semverInc sampleWsA.version
          ((fun _ _ => ReleaseType.minor) (trimStr ((splitChar '\n' (str "c0")).headD []))
            (replaceFirst sampleWsA.dir (str "/repo" ++ pathSep)))) :=
  (getNextVersion_case_split sampleGitNoTag (fun _ _ => ReleaseType.minor) (str "/repo")
    sampleWsA).1 (str "c0") rfl

/-- Claim C1: under either basis of C2's case split (recorded version with no
prior tag, or the selected ancestor tag stripped of the name prefix), when
the current version parses as a semver, the computed next version is the
semver increment of it by some release type — an increment that is strictly
greater in semver precedence. -/
theorem getNextVersion_valid_increment (git : GitEnv) (analyze : AnalyzeCommits)
    (cwd : Str) (tags : List Str) (workspace : IWorkspace) (cur : Str) (v : SemVer)
    (hcur :
      (tags = [] ∧ cur = workspace.version ∧
        ∃ out, git [str "log", str "--reverse", str "--pretty=format:%H", str "--",
          replaceFirst workspace.dir (cwd ++ pathSep)] = .ok out) ∨
      (tags ≠ [] ∧ ∃ t, pLocate tags (fun t2 => isRefInHistory git t2) = .ok (some t) ∧
        cur = replaceFirst t (workspace.name ++ str "-")))
    (hpar : parseSemVer cur = some v) :
    ∃ next rt,
      getNextVersion git analyze cwd tags workspace = .ok (workspace.name, some next) ∧
      next = renderSemVer (incBy rt v) ∧
      semverLtb v (incBy rt v) = true := by
  rcases hcur with ⟨htags, hver, out, hout⟩ | ⟨htags, t, hloc, hver⟩
  · subst htags
    have hfc := (getNextVersion_case_split git analyze cwd workspace).1 out hout
    refine ⟨renderSemVer (incBy (analyze (trimStr ((splitChar '\n' out).headD []))
        (replaceFirst workspace.dir (cwd ++ pathSep))) v),
      analyze (trimStr ((splitChar '\n' out).headD []))
        (replaceFirst workspace.dir (cwd ++ pathSep)), ?_, rfl, semverLtb_incBy _ _⟩
    rw [hfc, ← hver, semverInc, hpar]
    rfl
  · have hcs := (getNextVersion_case_split git analyze cwd workspace).2.1 tags t htags hloc
    refine ⟨renderSemVer (incBy (analyze t (replaceFirst workspace.dir (cwd ++ pathSep))) v),
      analyze t (replaceFirst workspace.dir (cwd ++ pathSep)), ?_, rfl, semverLtb_incBy _ _⟩
    rw [hcs, ← hver, semverInc, hpar]
    rfl

/-- Witness for C1 at the concrete no-prior-tag scenario: current version
1.2.0, release type minor; the hypotheses are discharged by evaluation. -/
theorem getNextVersion_valid_increment_witness :
    ∃ next rt,
      getNextVersion sampleGitNoTag (fun _ _ => ReleaseType.minor) (str "/repo") [] sampleWsA =
        .ok (sampleWsA.name, some next) ∧
      next = renderSemVer (incBy rt ⟨1, 2, 0, []⟩) ∧
      semverLtb ⟨1, 2, 0, []⟩ (incBy rt ⟨1, 2, 0, []⟩) = true :=
  getNextVersion_valid_increment sampleGitNoTag (fun _ _ => ReleaseType.minor) (str "/repo")
    [] sampleWsA (str "1.2.0") ⟨1, 2, 0, []⟩
    (Or.inl ⟨rfl, rfl, str "c0", rfl⟩) (by decide)

/-- Claim C3: nextVersionsForWorkspaces filters the newest-first project tag
list down per workspace to the tags starting with its name (a sublist, so
the order is preserved), delegates each filtered list to
nextVersionForWorkspace and joins the per-workspace results; on the spec
scenario the filtered list for workspace a is [a-1.5.0, a-1.4.0] and its
first ancestor-of-head, a-1.5.0, is selected. -/
theorem getNextVersionsByWorkspaces_filters (git : GitEnv) (analyze : AnalyzeCommits)
    (cwd : Str) (workspaces : List IWorkspace) (out : Str)
    (h : git [str "tag", str "--sort=-refname"] = .ok out) :
    (getNextVersionsByWorkspaces git analyze cwd workspaces =
      workspaces.mapM (fun workspace =>
        getNextVersion git analyze cwd
          (((splitChar '\n' out).map trimStr).filter
            (fun tag => startsWithStr tag workspace.name)) workspace)) ∧
    (∀ (name : Str) (ts : List Str),
      (ts.filter (fun tag => startsWithStr tag name)).Sublist ts) ∧
    sampleTags.filter (fun tag => startsWithStr tag (str "a")) =
      [str "a-1.5.0", str "a-1.4.0"] ∧
    pLocate [str "a-1.5.0", str "a-1.4.0"] (fun t => isRefInHistory sampleGitTagged t) =
      .ok (some (str "a-1.5.0")) := by
  refine ⟨?_, fun name ts => List.filter_sublist ts, by decide, rfl⟩
  simp [getNextVersionsByWorkspaces, getTags, h]

/-- Witness for C3 at a concrete environment, discharging the tag-listing
hypothesis against the sample tagged repository. -/
theorem getNextVersionsByWorkspaces_filters_witness :
    getNextVersionsByWorkspaces sampleGitTagged (fun _ _ => ReleaseType.patch) (str "/repo")
        [sampleWsA] =
      [sampleWsA].mapM (fun workspace =>
        getNextVersion sampleGitTagged (fun _ _ => ReleaseType.patch) (str "/repo")
          (((splitChar '\n' (str "b-2.0.0\na-1.5.0\na-1.4.0")).map trimStr).filter
            (fun tag => startsWithStr tag workspace.name)) workspace) :=
  (getNextVersionsByWorkspaces_filters sampleGitTagged (fun _ _ => ReleaseType.patch)
    (str "/repo") [sampleWsA] (str "b-2.0.0\na-1.5.0\na-1.4.0") rfl).1
